import Mathlib

/-!
Verification model of the crawl orchestration and artifact-correlation
subsystem (visit_sites_playwright.py and rename_by_page_field.py).

The Python source is shallowly embedded: pure functions become Lean
functions, the downloads directory becomes an explicit list of file
entries, the JSON library (an external collaborator, Python json.loads)
becomes a parser parameter producing values of an explicit JSON value
type, and uncaught Python exceptions become the none case of Option /
the error case of Except.  Machine reals (POSIX timestamps) are modelled
as rationals, which is exact for the comparisons and the subtraction of
1.0 performed by the source.
-/

/-! ## Python string primitives used by the source -/

/-- Whitespace set of Python str.strip / str.split (ASCII part; the source
    only ever meets ASCII whitespace). -/
def isPyWs (c : Char) : Bool :=
  c = ' ' ∨ c = '\t' ∨ c = '\n' ∨ c = '\r' ∨ c = '\x0b' ∨ c = '\x0c'

/-- Drop characters satisfying p from both ends of a character list. -/
def stripWhile (p : Char → Bool) (cs : List Char) : List Char :=
  ((cs.dropWhile p).reverse.dropWhile p).reverse

/-- Python str.strip() with no argument: strip whitespace from both ends. -/
def pyStrip (s : String) : String :=
  ⟨stripWhile isPyWs s.data⟩

/-- Python s.strip(c) for a one-character argument: strip every leading and
    trailing occurrence of that character. -/
def pyStripChar (c : Char) (s : String) : String :=
  ⟨stripWhile (fun d => d = c) s.data⟩

/-- Split a character list at every separator character, keeping empty
    pieces (the semantics of Python str.split with an explicit separator
    and of String.splitOn). -/
def splitFieldsAux (p : Char → Bool) : List Char → List Char → List String
  | [], acc => [⟨acc.reverse⟩]
  | c :: rest, acc =>
      if p c then ⟨acc.reverse⟩ :: splitFieldsAux p rest []
      else splitFieldsAux p rest (c :: acc)

/-- Python s.split(sep) for a one-character separator. -/
def splitOnChar (sep : Char) (s : String) : List String :=
  splitFieldsAux (fun c => c = sep) s.data []

/-- Python str.split() with no argument: split on whitespace runs, no empty
    pieces. -/
def pySplit (s : String) : List String :=
  (splitFieldsAux isPyWs s.data []).filter (fun t => t ≠ "")

/-- Python s.startswith(pre) (also the model of String.startsWith). -/
def strStartsWith (s pre : String) : Bool :=
  pre.data.isPrefixOf s.data

/-- Python str.splitlines for the line terminators occurring in the inputs
    of this program: a backslash-r-backslash-n pair, backslash-r alone and
    backslash-n alone each end a line, and no empty trailing line is
    produced for a terminator at the end of the text. -/
def pySplitlinesAux : List Char → List Char → List String
  | [], acc => if acc.isEmpty then [] else [⟨acc.reverse⟩]
  | '\r' :: '\n' :: rest, acc => ⟨acc.reverse⟩ :: pySplitlinesAux rest []
  | '\r' :: rest, acc => ⟨acc.reverse⟩ :: pySplitlinesAux rest []
  | '\n' :: rest, acc => ⟨acc.reverse⟩ :: pySplitlinesAux rest []
  | c :: rest, acc => pySplitlinesAux rest (c :: acc)

def pySplitlines (s : String) : List String :=
  pySplitlinesAux s.data []

/-! ## DOMAIN_RE

The source compiles the pattern caret [A-Za-z0-9.-]+ backslash-dot
[A-Za-z]{2,} dollar and uses re.match.  Because the letter block after the
final literal dot cannot contain a dot, an anchored match exists exactly
when the string splits at its last dot into a nonempty prefix of
domain characters and a suffix of at least two ASCII letters.  A Python
dollar anchor also matches just before a final newline character, which
the model reproduces. -/

/-- The character class [A-Za-z0-9.-]. -/
def isDomainChar (c : Char) : Bool :=
  c.isAlpha ∨ c.isDigit ∨ c = '.' ∨ c = '-'

/-- Anchored match of the domain pattern against a whole character list
    (without the trailing-newline allowance): split at the last dot. -/
def domainCore (cs : List Char) : Bool :=
  let rev := cs.reverse
  let tldRev := rev.takeWhile (fun c => c ≠ '.')
  match rev.dropWhile (fun c => c ≠ '.') with
  | '.' :: preRev =>
      ¬ preRev.isEmpty ∧ 2 ≤ tldRev.length ∧
      tldRev.all Char.isAlpha ∧ preRev.all isDomainChar
  | _ => false

/-- Python re.match of DOMAIN_RE viewed as a whole-string test (the pattern
    is anchored on both sides; the dollar also accepts one final newline). -/
def domainRe (s : String) : Bool :=
  domainCore s.data ||
  (match s.data.getLast? with
   | some '\n' => domainCore s.data.dropLast
   | _ => false)

/-- Python str.lower(): lowercase every character (the inputs here are
    ASCII, where Python lowercasing and Char.toLower agree). -/
def pyLower (s : String) : String :=
  ⟨s.data.map Char.toLower⟩

/-! ## sld_from_hostname (visit_sites_playwright.py lines 84 to 89) -/

/-- Second-level-domain label: parts = host.split(dot); parts[-2] when there
    are at least two parts, else the host itself; lowercased. -/
def sld_from_hostname (host : String) : String :=
  let parts := splitOnChar '.' host
  pyLower (if 2 ≤ parts.length then parts.getD (parts.length - 2) "" else host)

/-! ## UTC calendar conversion (datetime.fromtimestamp(_, timezone.utc))

Timestamps are modelled as rationals; datetime truncates to whole seconds
when formatted with the second-resolution format string of the source.
The civil-from-days algorithm is the standard proleptic Gregorian
conversion used by every datetime implementation. -/

/-- Two-digit zero padded decimal. -/
def pad2 (n : Nat) : String :=
  if n < 10 then "0" ++ toString n else toString n

/-- Four-digit zero padded decimal (strftime %Y for the years reachable
    here). -/
def pad4 (n : Nat) : String :=
  if n < 10 then "000" ++ toString n
  else if n < 100 then "00" ++ toString n
  else if n < 1000 then "0" ++ toString n
  else toString n

/-- Days since 1970-01-01 to (year, month, day), proleptic Gregorian. -/
def civilFromDays (z0 : Int) : Int × Nat × Nat :=
  let z := z0 + 719468
  let era := Int.fdiv z 146097
  let doe := (z - era * 146097).toNat
  let yoe := (doe - doe / 1460 + doe / 36524 - doe / 146096) / 365
  let doy := doe - (365 * yoe + yoe / 4 - yoe / 100)
  let mp := (5 * doy + 2) / 153
  let d := doy - (153 * mp + 2) / 5 + 1
  let m := if mp < 10 then mp + 3 else mp - 9
  let y := era * 400 + (yoe : Int)
  (if m ≤ 2 then y + 1 else y, m, d)

/-- Epoch seconds to the six broken-down UTC fields. -/
def dtFieldsFromSecs (secs : Int) : Int × Nat × Nat × Nat × Nat × Nat :=
  let days := Int.fdiv secs 86400
  let sod := (secs - days * 86400).toNat
  let (y, m, d) := civilFromDays days
  (y, m, d, sod / 3600, sod / 60 % 60, sod % 60)

/-- dt.strftime of the format string used by both source files:
    percent-Y dash percent-m dash percent-d T percent-H dash percent-M
    dash percent-S Z. -/
def fmtCompactISO (secs : Int) : String :=
  let (y, m, d, hh, mm, ss) := dtFieldsFromSecs secs
  pad4 y.toNat ++ "-" ++ pad2 m ++ "-" ++ pad2 d ++ "T" ++
    pad2 hh ++ "-" ++ pad2 mm ++ "-" ++ pad2 ss ++ "Z"

/-- datetime.fromtimestamp(q, timezone.utc), given the floor of the
    fractional timestamp in seconds: succeeds exactly when the result lies
    in the supported year range 1 to 9999, else raises (modelled as none).
    Only the floor matters at the second resolution of the format string,
    and the year-range check on the floor agrees with the check on the
    fractional value. -/
def fromtimestampOpt (secs : Int) : Option Int :=
  if -62135596800 ≤ secs ∧ secs ≤ 253402300799 then some secs else none

/-! ## urlparse hostname (urllib.parse, external library boundary)

Model of urlparse(s).hostname restricted to what the source observes:
the scheme is split off when present, a netloc exists only after a
double slash, userinfo before the last at-sign and a port after a colon
are dropped.  The model returns the raw host slice; every call site in
the source immediately applies .lower(), which subsumes the lowering
performed inside the hostname property.  An absent hostname (None) is
returned as the empty string, matching the (hostname or "") idiom of
the call sites. -/

def isSchemeChar (c : Char) : Bool :=
  c.isAlpha ∨ c.isDigit ∨ c = '+' ∨ c = '-' ∨ c = '.'

/-- Modern urllib removes tab, carriage return and newline anywhere and
    strips leading and trailing C0 controls and spaces. -/
def sanitizeUrl (cs : List Char) : List Char :=
  (stripWhile (fun c => c.toNat ≤ 32) cs).filter
    (fun c => ¬ (c = '\t' ∨ c = '\r' ∨ c = '\n'))

/-- Split a leading scheme terminated by a colon, when the part before the
    colon starts with a letter and consists of scheme characters. -/
def dropScheme (cs : List Char) : List Char :=
  let pre := cs.takeWhile (fun c => c ≠ ':')
  match cs.drop pre.length with
  | ':' :: rest =>
      if (¬ pre.isEmpty) ∧ (pre.headD ' ').isAlpha ∧ pre.all isSchemeChar
      then rest else cs
  | _ => cs

/-- The part of a netloc after its last at-sign (netloc.rpartition). -/
def afterLastAt (cs : List Char) : List Char :=
  (cs.reverse.takeWhile (fun c => c ≠ '@')).reverse

def urlparse_hostname (s : String) : String :=
  let cs := sanitizeUrl s.data
  match dropScheme cs with
  | '/' :: '/' :: netrest =>
      let netloc := netrest.takeWhile (fun c => c ≠ '/' ∧ c ≠ '?' ∧ c ≠ '#')
      let hostinfo := afterLastAt netloc
      let host :=
        if (hostinfo.headD ' ') = '[' then
          (hostinfo.drop 1).takeWhile (fun c => c ≠ ']')
        else hostinfo.takeWhile (fun c => c ≠ ':')
      ⟨host⟩
  | _ => ""

/-! ## JSON values (boundary of Python json.loads)

json.loads itself is library code outside this repository; the model
takes it as a parameter of type String to Option JValue (none models a
parse error, which the source catches).  JValue mirrors the Python value
domain json.loads can produce; bool is kept separate from num because
Python bools answer isinstance(x, int) with True, which the model of
iso_from_epoch_ms reproduces. -/

inductive JValue where
  | null
  | bool (b : Bool)
  | num (q : ℚ)
  | str (s : String)
  | arr (elems : List JValue)
  | obj (fields : List (String × JValue))

/-- Python truthiness of a JSON-derived value. -/
def truthy : JValue → Bool
  | JValue.null => false
  | JValue.bool b => b
  | JValue.num q => ¬ q = 0
  | JValue.str s => ¬ s = ""
  | JValue.arr elems => ¬ elems.isEmpty
  | JValue.obj fields => ¬ fields.isEmpty

/-- dict.get(k): with duplicate keys in the JSON text, the last binding
    wins, as in a Python dict built by json.loads. -/
def objGet (fields : List (String × JValue)) (k : String) : Option JValue :=
  match fields.reverse.find? (fun kv => kv.1 = k) with
  | some kv => some kv.2
  | none => none

/-- Python a or b on optional values (None and falsy values select b). -/
def pyOr (a b : Option JValue) : Option JValue :=
  match a with
  | some v => if truthy v then some v else b
  | none => b

/-- Python not x on an optional value. -/
def pyFalsy : Option JValue → Bool
  | none => true
  | some v => ¬ truthy v

/-! ## _try_load_json (visit_sites_playwright.py lines 110 to 118) -/

/-- The fast reject: the text, after leading whitespace, must begin with
    an opening brace or an opening bracket. -/
def startsJsonLike (text : String) : Bool :=
  match text.data.dropWhile isPyWs with
  | c :: _ => c = '{' ∨ c = '['
  | [] => false

def _try_load_json (loads : String → Option JValue) (text : String) : Option JValue :=
  if startsJsonLike text then loads text else none

/-! ## iso_from_epoch_ms (visit_sites_playwright.py lines 92 to 107) -/

/-! The isinstance(ms, (int, float)) test of the source also accepts
    Python bools (bool is a subclass of int, True counting as 1); any
    other value, None included, falls through to the file mtime.  The
    floor of ms divided by 1000 is computed as a floor division of the
    floored numerator, which is the same integer. -/

def iso_from_epoch_ms (now : ℚ) (ms : Option JValue) (fallback_mtime : Option ℚ) : String :=
  let dt1 : Option Int :=
    match ms with
    | some (JValue.num q) => fromtimestampOpt (Int.fdiv (Rat.floor q) 1000)
    | some (JValue.bool b) => fromtimestampOpt (Int.fdiv (if b then 1 else 0) 1000)
    | _ => none
  let dt2 : Option Int :=
    match dt1 with
    | some secs => some secs
    | none =>
        match fallback_mtime with
        | some mt => fromtimestampOpt (Rat.floor mt)
        | none => none
  match dt2 with
  | some secs => fmtCompactISO secs
  | none => fmtCompactISO (Rat.floor now)

/-! ## Path.stem and Path.suffix (pathlib, used by _uniquify) -/

/-- pathlib splits a file name at its last dot when that dot is neither
    the first nor the last character; otherwise the suffix is empty. -/
def path_stem_suffix (name : String) : String × String :=
  let cs := name.data
  let tailLen := (cs.reverse.takeWhile (fun c => c ≠ '.')).length
  if ('.' ∈ cs) then
    let i := cs.length - 1 - tailLen
    if 0 < i ∧ i < cs.length - 1 then (⟨cs.take i⟩, ⟨cs.drop i⟩)
    else (name, "")
  else (name, "")

/-! ## _uniquify (visit_sites_playwright.py lines 121 to 131)

The source loops while candidates exist on disk.  The model receives the
names present in the directory; the while-True loop becomes a fueled
recursion, and a lemma below shows the fuel (one more than the number of
existing names) can never be exhausted, so the model computes exactly
the first free candidate the source finds. -/

def candName (stem suffix : String) (i : Nat) : String :=
  stem ++ "_" ++ toString i ++ suffix

def uniquifyGo (names : List String) (stem suffix : String) : Nat → Nat → String
  | i, 0 => candName stem suffix i
  | i, fuel + 1 =>
      let candidate := candName stem suffix i
      if candidate ∈ names then uniquifyGo names stem suffix (i + 1) fuel
      else candidate

def _uniquify (names : List String) (target : String) : String :=
  if target ∈ names then
    let sp := path_stem_suffix target
    uniquifyGo names sp.1 sp.2 1 (names.length + 1)
  else target

/-! ## The downloads directory -/

/-- One regular file of the downloads directory: its current name, its
    byte content (never modified by the correlator) and its modification
    time in epoch seconds.  Renaming preserves content and mtime. -/
structure FileEntry where
  name : String
  content : String
  mtime : ℚ
deriving DecidableEq

def dirNames (dir : List FileEntry) : List String :=
  dir.map FileEntry.name

def renameEntry (dir : List FileEntry) (oldName newName : String) : List FileEntry :=
  dir.map (fun e => if e.name = oldName then FileEntry.mk newName e.content e.mtime else e)

/-! ## postprocess_rename (visit_sites_playwright.py lines 134 to 181)

The body of the for loop over the snapshot of files.  An uncaught Python
exception (AttributeError from data.get on a non-dict, or the TypeError
from urlparse on a non-string page value) is the none result and aborts
the whole pass, exactly as in the source; the except clause around
f.rename is not reachable in the model because the model filesystem has
no concurrent writers. -/

def processOne (loads : String → Option JValue) (now : ℚ)
    (dir : List FileEntry) (f : FileEntry) : Option (List FileEntry × Nat) :=
  match _try_load_json loads f.content with
  | none => some (dir, 0)
  | some JValue.null => some (dir, 0)
  | some (JValue.obj fields) =>
      let page_url := pyOr (objGet fields ("page")) (objGet fields ("url"))
      if pyFalsy page_url then some (dir, 0)
      else
        match page_url with
        | some (JValue.str purl) =>
            let host := pyLower (urlparse_hostname purl)
            if ¬ domainRe host then some (dir, 0)
            else
              let domain_label := sld_from_hostname host
              let ts_ms := objGet fields ("timestamp")
              let iso_stamp := iso_from_epoch_ms now ts_ms (some f.mtime)
              let new_name := "css_dump_" ++ iso_stamp ++ "_" ++ domain_label ++ ".json"
              let target := _uniquify (dirNames dir) new_name
              if target = f.name then some (dir, 0)
              else some (renameEntry dir f.name target, 1)
        | _ => none
  | some _ => none

def renameLoop (loads : String → Option JValue) (now : ℚ) :
    List FileEntry → List FileEntry → Nat → Option (List FileEntry × Nat)
  | [], dir, renamed => some (dir, renamed)
  | f :: rest, dir, renamed =>
      match processOne loads now dir f with
      | none => none
      | some (dir2, inc) => renameLoop loads now rest dir2 (renamed + inc)

/-- The snapshot taken before the loop: every regular file, optionally
    filtered to modification time at least only_newer_than_epoch. -/
def consideredFiles (dir : List FileEntry) (only_newer_than_epoch : Option ℚ) :
    List FileEntry :=
  match only_newer_than_epoch with
  | some bound => dir.filter (fun p => bound ≤ p.mtime)
  | none => dir

def postprocess_rename (loads : String → Option JValue) (now : ℚ)
    (dir : List FileEntry) (only_newer_than_epoch : Option ℚ) :
    Option (List FileEntry × Nat) :=
  renameLoop loads now (consideredFiles dir only_newer_than_epoch) dir 0

/-- The bound the orchestrator hands to the incremental per-visit pass
    (visit_sites_playwright.py line 303): start_epoch minus 1.0. -/
def incrementalRenameBound (start_epoch : ℚ) : ℚ :=
  start_epoch - 1

/-! ## _extract_domain and load_sites (visit_sites_playwright.py 42 to 81)

_extract_domain can raise IndexError (s.split()[-1] on a string that
contains whitespace but only whitespace), so it returns Except; the ok
none case is a silently dropped line. -/

/-- The two quote characters stripped by the source, written by code
    point to keep literals simple. -/
def dquote : Char := Char.ofNat 34

def squote : Char := Char.ofNat 39

/-- re.sub of the rank pattern (caret, digits, one of dot dash colon):
    digits and separators are disjoint, so the regex matches exactly when
    the maximal digit prefix is nonempty and followed by a separator. -/
def stripRank (s : String) : String :=
  let ds := s.data.takeWhile Char.isDigit
  match s.data.drop ds.length with
  | c :: restAfter =>
      if (¬ ds.isEmpty) ∧ (c = '.' ∨ c = '-' ∨ c = ':') then ⟨restAfter⟩ else s
  | [] => s

/-- The tail of _extract_domain shared by the comma, whitespace and bare
    branches: strip a rank, strip slashes, lowercase, test the pattern. -/
def finishExtract (s : String) : Option String :=
  let s2 := pyLower (pyStripChar '/' (stripRank s))
  if domainRe s2 then some s2 else none

/-- The whitespace branch of _extract_domain: s.split()[-1] raises
    IndexError (the error case) when the string splits into no tokens. -/
def extractTail (s1 : String) : Except Unit (Option String) :=
  if (' ' ∈ s1.data) ∨ ('\t' ∈ s1.data) then
    match (pySplit s1).getLast? with
    | none => Except.error ()
    | some tok => Except.ok (finishExtract (pyStrip tok))
  else Except.ok (finishExtract s1)

/-- _extract_domain after the initial strip of whitespace and quotes. -/
def extractAfterQuotes (s : String) : Except Unit (Option String) :=
  if s = "" then Except.ok none
  else if strStartsWith s ("http://") || strStartsWith s ("https://") then
    Except.ok
      (if domainRe (pyLower (urlparse_hostname s)) then
        some (pyLower (urlparse_hostname s))
      else none)
  else
    extractTail (if (',' ∈ s.data) then pyStrip ((splitOnChar ',' s).getLastD "") else s)

def _extract_domain (raw : String) : Except Unit (Option String) :=
  if raw = "" then Except.ok none
  else extractAfterQuotes (pyStripChar squote (pyStripChar dquote (pyStrip raw)))

def loadSitesLoop : List String → List String → Except Unit (List String)
  | [], out => Except.ok out.reverse
  | line :: rest, out =>
      match _extract_domain line with
      | Except.error e => Except.error e
      | Except.ok none => loadSitesLoop rest out
      | Except.ok (some d) =>
          if d ∈ out then loadSitesLoop rest out else loadSitesLoop rest (d :: out)

/-- load_sites over the already-split lines of the site file: first-seen
    order, deduplicated through the seen set. -/
def load_sites (text : String) : Except Unit (List String) :=
  loadSitesLoop (pySplitlines text) []

/-! ## _read_set (visit_sites_playwright.py lines 184 to 192) -/

/-- The visited ledger as read at startup: one line per entry, stripped,
    empty lines dropped; set membership is list membership here. -/
def _read_set (lines : List String) : List String :=
  (lines.map pyStrip).filter (fun s => s ≠ "")

/-! ## One visit (visit_sites_playwright.py lines 266 to 320)

Navigation is the external browser boundary: attempt url = none means
page.goto succeeded, some msg means it raised an exception whose str()
is msg.  The visit first tries the https url, on failure the http url;
err is set only from the second failure. -/

structure VisitResult where
  loaded : Bool
  final_url : Option String
  err : Option String
deriving DecidableEq

def visitDomain (attempt : String → Option String) (domain : String) : VisitResult :=
  let url_https := "https://" ++ domain
  let url_http := "http://" ++ domain
  match attempt url_https with
  | none => VisitResult.mk true (some url_https) none
  | some _ =>
      match attempt url_http with
      | none => VisitResult.mk true (some url_http) none
      | some e_http => VisitResult.mk false none (some e_http)

/-- The navigation attempts the visit performs, in order. -/
def navAttempts (attempt : String → Option String) (domain : String) : List String :=
  match attempt ("https://" ++ domain) with
  | none => ["https://" ++ domain]
  | some _ => ["https://" ++ domain, "http://" ++ domain]

/-- Python truthiness of the err variable (None or a string). -/
def pyTruthyStr : Option String → Bool
  | none => false
  | some s => ¬ s = ""

/-- The lines appended to failed.txt for one visit outcome
    (visit_sites_playwright.py lines 319 to 320). -/
def failureLogAppend (domain : String) (r : VisitResult) : List String :=
  if (¬ r.loaded) ∨ pyTruthyStr r.err then
    [domain ++ "\t" ++ (r.final_url.getD "") ++ "\t" ++
      (match r.err with
       | some e => if ¬ e = "" then e else "not_loaded"
       | none => "not_loaded")]
  else []

/-! ## The crawl loop (visit_sites_playwright.py lines 251 to 264)

The loop skips domains in the visited set, restarts the browser context
at the top of an iteration when processed is positive and divisible by
the restart threshold, then visits the domain.  The model records the
observable restart and visit events; the visited set grows exactly as in
the source. -/

inductive Event where
  | restart
  | visit (domain : String)
deriving DecidableEq

def crawlLoop (N : Nat) : List String → List String → Nat → List Event
  | _, [], _ => []
  | visited, d :: rest, processed =>
      if d ∈ visited then crawlLoop N visited rest processed
      else
        (if 0 < processed ∧ processed % N = 0 then [Event.restart] else []) ++
        Event.visit d :: crawlLoop N (d :: visited) rest (processed + 1)

def countVisits (es : List Event) : Nat :=
  es.countP (fun e => match e with | Event.visit _ => true | Event.restart => false)

def countRestarts (es : List Event) : Nat :=
  es.countP (fun e => match e with | Event.restart => true | Event.visit _ => false)

/-! ## Concrete fixtures used by the claim evaluations

Each fixture parser represents json.loads on the specific artifact bodies
appearing in the concrete scenarios (the braces of the JSON text are
written by escape to keep the literals plain). -/

def artIdem : String :=
  "\x7b\"page\":\"https://idem.org/a\",\"timestamp\":1699999999000\x7d"

def loadsIdem : String → Option JValue := fun t =>
  if t = artIdem then
    some (JValue.obj [("page", JValue.str ("https://idem.org/a")),
                      ("timestamp", JValue.num 1699999999000)])
  else none

def idemCanonical : String := "css_dump_2023-11-14T22-13-19Z_idem.json"

def artX : String :=
  "\x7b\"page\":\"https://x.com/path\",\"timestamp\":1700000000000\x7d"

def loadsX : String → Option JValue := fun t =>
  if t = artX then
    some (JValue.obj [("page", JValue.str ("https://x.com/path")),
                      ("timestamp", JValue.num 1700000000000)])
  else none

def xCanonical : String := "css_dump_2023-11-14T22-13-20Z_x.json"

def artColl : String :=
  "\x7b\"page\":\"https://coll.net/p\",\"timestamp\":1700000001000\x7d"

def loadsColl : String → Option JValue := fun t =>
  if t = artColl then
    some (JValue.obj [("page", JValue.str ("https://coll.net/p")),
                      ("timestamp", JValue.num 1700000001000)])
  else none

def collCanonical : String := "css_dump_2023-11-14T22-13-21Z_coll.json"

def contentNoPage : String := "\x7b\"x\":1\x7d"

def contentBadHost : String := "\x7b\"page\":\"nohost\"\x7d"

def contentArray : String := "[1, 2]"

def loadsMixed : String → Option JValue := fun t =>
  if t = contentNoPage then some (JValue.obj [("x", JValue.num 1)])
  else if t = contentBadHost then
    some (JValue.obj [("page", JValue.str ("nohost"))])
  else if t = contentArray then
    some (JValue.arr [JValue.num 1, JValue.num 2])
  else none

/-- A navigation oracle where the https attempt fails with a message and
    the http attempt fails with an empty exception message. -/
def attemptHttpEmptyMsg : String → Option String := fun u =>
  if u = "https://ex.com" then some ("ssl error")
  else if u = "http://ex.com" then some ("") else none

/-- A navigation oracle where only the https attempt fails. -/
def attemptHttpsFails : String → Option String := fun u =>
  if u = "https://fb.org" then some ("timeout 30000ms exceeded") else none

/-! ## General lemmas

First, injectivity of the decimal representation used by candName (the
f-string interpolation of the collision counter), obtained by relating
Nat.toDigitsCore to Nat.digits. -/

theorem toDigitsCore_eq_digits (fuel : Nat) :
    ∀ (n : Nat) (l : List Char), 0 < n → n < fuel →
      Nat.toDigitsCore 10 fuel n l =
        ((Nat.digits 10 n).map Nat.digitChar).reverse ++ l := by
  induction fuel with
  | zero => intro n l h1 h2; omega
  | succ fuel ih =>
      intro n l h1 h2
      rw [Nat.digits_def' (b := 10) (by norm_num) h1]
      by_cases h10 : n / 10 = 0
      · simp [Nat.toDigitsCore, h10]
      · have hp : 0 < n / 10 := Nat.pos_of_ne_zero h10
        have hf : n / 10 < fuel := by
          have := Nat.div_lt_self h1 (by norm_num : 1 < 10)
          omega
        simp only [Nat.toDigitsCore, h10, if_false]
        rw [ih (n / 10) (Nat.digitChar (n % 10) :: l) hp hf]
        simp

theorem repr_data_pos (n : Nat) (h : 0 < n) :
    (Nat.repr n).data = ((Nat.digits 10 n).map Nat.digitChar).reverse := by
  show (Nat.toDigitsCore 10 (n + 1) n []).asString.data = _
  rw [toDigitsCore_eq_digits (n + 1) n [] h (by omega)]
  simp [List.asString]

theorem digitChar_inj_lt : ∀ a, a < 10 → ∀ b, b < 10 →
    Nat.digitChar a = Nat.digitChar b → a = b := by decide

theorem map_digitChar_inj : ∀ (l1 l2 : List Nat), (∀ d ∈ l1, d < 10) →
    (∀ d ∈ l2, d < 10) → l1.map Nat.digitChar = l2.map Nat.digitChar → l1 = l2 := by
  intro l1
  induction l1 with
  | nil => intro l2 _ _ h; cases l2 <;> simp_all
  | cons a t ih =>
      intro l2 h1 h2 h
      cases l2 with
      | nil => simp at h
      | cons b t2 =>
          simp only [List.map_cons, List.cons.injEq] at h
          have hab := digitChar_inj_lt a (h1 a (by simp)) b (h2 b (by simp)) h.1
          have ht := ih t2 (fun d hd => h1 d (by simp [hd]))
            (fun d hd => h2 d (by simp [hd])) h.2
          rw [hab, ht]

theorem natRepr_inj (m n : Nat) (h : (Nat.repr m).data = (Nat.repr n).data) :
    m = n := by
  have digLt : ∀ k : Nat, ∀ d ∈ Nat.digits 10 k, d < 10 := fun k d hd =>
    Nat.digits_lt_base (by norm_num) hd
  have zeroCase : ∀ k : Nat, 0 < k → (Nat.repr k).data = (Nat.repr 0).data → False := by
    intro k hk hdata
    rw [repr_data_pos k hk] at hdata
    have h1 : (Nat.digits 10 k).map Nat.digitChar = ['0'] := by
      have := congrArg List.reverse hdata
      simpa using this
    have h2 : Nat.digits 10 k = [0] :=
      map_digitChar_inj _ [0] (digLt k) (by simp) (by simpa using h1)
    have := Nat.ofDigits_digits 10 k
    rw [h2] at this
    simp [Nat.ofDigits] at this
    omega
  rcases Nat.eq_zero_or_pos m with hm | hm <;> rcases Nat.eq_zero_or_pos n with hn | hn
  · omega
  · exact absurd (hm ▸ h).symm (fun hx => zeroCase n hn hx)
  · exact absurd (hn ▸ h) (fun hx => zeroCase m hm hx)
  · rw [repr_data_pos m hm, repr_data_pos n hn] at h
    have h1 := List.reverse_injective h
    have h2 := map_digitChar_inj _ _ (digLt m) (digLt n) h1
    rw [← Nat.ofDigits_digits 10 m, ← Nat.ofDigits_digits 10 n, h2]

theorem candName_inj (stem suffix : String) {i j : Nat}
    (h : candName stem suffix i = candName stem suffix j) : i = j := by
  have hd := congrArg String.data h
  simp only [candName, String.data_append] at hd
  have h1 := List.append_cancel_right hd
  have h2 := List.append_cancel_left h1
  exact natRepr_inj i j h2

/-- Pigeonhole: among any names.length + 1 consecutive candidate names at
    least one is not taken. -/
theorem candName_exists_free (names : List String) (stem suffix : String) (i : Nat) :
    ∃ k, i ≤ k ∧ k ≤ i + names.length ∧ candName stem suffix k ∉ names := by
  by_contra hcon
  push_neg at hcon
  have hmaps : ∀ j ∈ Finset.range (names.length + 1),
      candName stem suffix (i + j) ∈ names.toFinset := by
    intro j hj
    rw [List.mem_toFinset]
    rw [Finset.mem_range] at hj
    exact hcon (i + j) (Nat.le_add_right i j) (by omega)
  have hcard : names.toFinset.card < (Finset.range (names.length + 1)).card := by
    rw [Finset.card_range]
    exact Nat.lt_succ_of_le names.toFinset_card_le
  obtain ⟨a, ha, b, hb, hab, heq⟩ :=
    Finset.exists_ne_map_eq_of_card_lt_of_maps_to hcard hmaps
  exact hab (by have := candName_inj stem suffix heq; omega)

/-- The fueled loop returns the first free candidate at or after index i,
    provided a free candidate exists within the fuel. -/
theorem uniquifyGo_spec (names : List String) (stem suffix : String) :
    ∀ (fuel i : Nat),
      (∃ k, i ≤ k ∧ k < i + fuel ∧ candName stem suffix k ∉ names) →
      ∃ j, i ≤ j ∧ uniquifyGo names stem suffix i fuel = candName stem suffix j ∧
        candName stem suffix j ∉ names ∧
        (∀ m, i ≤ m → m < j → candName stem suffix m ∈ names) := by
  intro fuel
  induction fuel with
  | zero => rintro i ⟨k, hk1, hk2, _⟩; omega
  | succ fuel ih =>
      rintro i ⟨k, hk1, hk2, hk3⟩
      by_cases hmem : candName stem suffix i ∈ names
      · have hik : i ≠ k := fun he => hk3 (he ▸ hmem)
        obtain ⟨j, hj1, hj2, hj3, hj4⟩ := ih (i + 1) ⟨k, by omega, by omega, hk3⟩
        refine ⟨j, by omega, ?_, hj3, ?_⟩
        · simpa [uniquifyGo, hmem] using hj2
        · intro m hm1 hm2
          rcases Nat.eq_or_lt_of_le hm1 with he | hlt
          · exact he ▸ hmem
          · exact hj4 m hlt hm2
      · exact ⟨i, Nat.le_refl i, by simp [uniquifyGo, hmem], hmem,
          fun m hm1 hm2 => by omega⟩

/-- The name chosen by _uniquify never collides with an existing name. -/
theorem uniquify_notMem (names : List String) (target : String) :
    _uniquify names target ∉ names := by
  unfold _uniquify
  by_cases h : target ∈ names
  · simp only [h, if_true]
    obtain ⟨k, hk1, hk2, hk3⟩ :=
      candName_exists_free names (path_stem_suffix target).1 (path_stem_suffix target).2 1
    obtain ⟨j, _, hj2, hj3, _⟩ := uniquifyGo_spec names _ _ (names.length + 1) 1
      ⟨k, hk1, by omega, hk3⟩
    rw [hj2]
    exact hj3
  · rw [if_neg h]; exact h

/-- A target that is not taken is kept unchanged. -/
theorem uniquify_id (names : List String) (target : String) (h : target ∉ names) :
    _uniquify names target = target := by
  simp [_uniquify, h]

/-- A taken target receives the smallest unused positive counter. -/
theorem uniquify_least (names : List String) (target : String) (h : target ∈ names) :
    ∃ j, 1 ≤ j ∧
      _uniquify names target =
        candName (path_stem_suffix target).1 (path_stem_suffix target).2 j ∧
      candName (path_stem_suffix target).1 (path_stem_suffix target).2 j ∉ names ∧
      (∀ m, 1 ≤ m → m < j →
        candName (path_stem_suffix target).1 (path_stem_suffix target).2 m ∈ names) := by
  obtain ⟨k, hk1, hk2, hk3⟩ :=
    candName_exists_free names (path_stem_suffix target).1 (path_stem_suffix target).2 1
  obtain ⟨j, hj1, hj2, hj3, hj4⟩ := uniquifyGo_spec names _ _ (names.length + 1) 1
    ⟨k, hk1, by omega, hk3⟩
  refine ⟨j, hj1, ?_, hj3, hj4⟩
  simpa [_uniquify, h] using hj2

/-! Directory-level consequences: a pass never creates duplicate names. -/

theorem dirNames_renameEntry (dir : List FileEntry) (oldName newName : String) :
    dirNames (renameEntry dir oldName newName) =
      (dirNames dir).map (fun n => if n = oldName then newName else n) := by
  induction dir with
  | nil => rfl
  | cons e rest ih =>
      simp only [renameEntry, dirNames, List.map_cons] at ih ⊢
      by_cases he : e.name = oldName
      · simp only [he, if_true, if_pos]
        exact congrArg (List.cons newName) ih
      · simp only [he, if_false, if_neg he]
        exact congrArg (List.cons e.name) ih

theorem nodup_rename (names : List String) (oldName newName : String)
    (hnew : newName ∉ names) (h : names.Nodup) :
    (names.map (fun n => if n = oldName then newName else n)).Nodup := by
  induction names with
  | nil => simp
  | cons a rest ih =>
      rw [List.nodup_cons] at h
      obtain ⟨ha, hrest⟩ := h
      have hnewRest : newName ∉ rest := fun hx => hnew (List.mem_cons_of_mem a hx)
      rw [List.map_cons, List.nodup_cons]
      refine ⟨?_, ih hnewRest hrest⟩
      intro hmem
      rw [List.mem_map] at hmem
      obtain ⟨b, hb, hfb⟩ := hmem
      by_cases hb2 : b = oldName <;> by_cases ha2 : a = oldName
      · exact ha (by rw [ha2, ← hb2]; exact hb)
      · rw [if_pos hb2, if_neg ha2] at hfb
        exact hnew (hfb ▸ List.mem_cons_self a rest)
      · rw [if_neg hb2, if_pos ha2] at hfb
        exact hnewRest (hfb ▸ hb)
      · rw [if_neg hb2, if_neg ha2] at hfb
        exact ha (hfb ▸ hb)

/-- Every successful step of the loop either leaves the directory alone or
    renames the processed file to a name that did not exist. -/
theorem processOne_cases (loads : String → Option JValue) (now : ℚ)
    (dir : List FileEntry) (f : FileEntry) (dir2 : List FileEntry) (inc : Nat)
    (h : processOne loads now dir f = some (dir2, inc)) :
    (dir2 = dir ∧ inc = 0) ∨
    (∃ newName, newName ∉ dirNames dir ∧
      dir2 = renameEntry dir f.name newName ∧ inc = 1) := by
  unfold processOne at h
  split at h
  · exact Or.inl (by cases h; exact ⟨rfl, rfl⟩)
  · exact Or.inl (by cases h; exact ⟨rfl, rfl⟩)
  · dsimp only at h
    split at h
    · exact Or.inl (by cases h; exact ⟨rfl, rfl⟩)
    · split at h
      · split at h
        · exact Or.inl (by cases h; exact ⟨rfl, rfl⟩)
        · split at h
          · exact Or.inl (by cases h; exact ⟨rfl, rfl⟩)
          · cases h
            exact Or.inr ⟨_, uniquify_notMem _ _, rfl, rfl⟩
      · cases h
  · cases h

/-- The rename loop preserves distinctness of the directory names. -/
theorem renameLoop_nodup (loads : String → Option JValue) (now : ℚ) :
    ∀ (files dir : List FileEntry) (acc : Nat) (res : List FileEntry × Nat),
      (dirNames dir).Nodup → renameLoop loads now files dir acc = some res →
      (dirNames res.1).Nodup := by
  intro files
  induction files with
  | nil =>
      intro dir acc res h hr
      cases hr
      exact h
  | cons f rest ih =>
      intro dir acc res h hr
      simp only [renameLoop] at hr
      cases hp : processOne loads now dir f with
      | none => rw [hp] at hr; cases hr
      | some p =>
          rw [hp] at hr
          obtain ⟨dir2, inc⟩ := p
          rcases processOne_cases loads now dir f dir2 inc hp with
            ⟨hd, _⟩ | ⟨nn, hnn, hd, _⟩
          · exact ih dir2 (acc + inc) res (hd ▸ h) hr
          · have h2 : (dirNames dir2).Nodup := by
              rw [hd, dirNames_renameEntry]
              exact nodup_rename _ _ _ hnn h
            exact ih dir2 (acc + inc) res h2 hr

/-- Whole-pass corollary: a successful postprocess_rename pass keeps all
    names in the directory pairwise distinct. -/
theorem postprocess_rename_nodup (loads : String → Option JValue) (now : ℚ)
    (dir : List FileEntry) (bound : Option ℚ) (res : List FileEntry × Nat)
    (h : (dirNames dir).Nodup) (hr : postprocess_rename loads now dir bound = some res) :
    (dirNames res.1).Nodup :=
  renameLoop_nodup loads now (consideredFiles dir bound) dir 0 res h hr

/-! Crawl loop lemmas. -/

theorem countVisits_nil : countVisits [] = 0 := rfl

theorem countRestarts_nil : countRestarts [] = 0 := rfl

theorem countVisits_cons_visit (d : String) (es : List Event) :
    countVisits (Event.visit d :: es) = countVisits es + 1 := by
  simp [countVisits, List.countP_cons]

theorem countVisits_cons_restart (es : List Event) :
    countVisits (Event.restart :: es) = countVisits es := by
  simp [countVisits, List.countP_cons]

theorem countRestarts_cons_visit (d : String) (es : List Event) :
    countRestarts (Event.visit d :: es) = countRestarts es := by
  simp [countRestarts, List.countP_cons]

theorem countRestarts_cons_restart (es : List Event) :
    countRestarts (Event.restart :: es) = countRestarts es + 1 := by
  simp [countRestarts, List.countP_cons]

/-- Wherever the crawl loop emits a restart, the number of visits already
    emitted is exactly the restart threshold times the number of restarts
    already emitted plus one, and a visit follows at once.  The processed
    counter is tracked in the form N times k plus q. -/
theorem crawlLoop_restart_split (N : Nat) (hN : 0 < N) :
    ∀ (ds visited : List String) (k q : Nat),
      ((q = 0 ∧ k = 0) ∨ (1 ≤ q ∧ q ≤ N)) →
      ∀ (pre post : List Event),
        crawlLoop N visited ds (N * k + q) = pre ++ Event.restart :: post →
        countVisits pre + q = N * (countRestarts pre + 1) ∧
        ∃ d t, post = Event.visit d :: t := by
  intro ds
  induction ds with
  | nil =>
      intro visited k q _ pre post h
      simp [crawlLoop] at h
  | cons d rest ih =>
      intro visited k q hq pre post h
      by_cases hv : d ∈ visited
      · rw [show crawlLoop N visited (d :: rest) (N * k + q) =
            crawlLoop N visited rest (N * k + q) by simp [crawlLoop, hv]] at h
        exact ih visited k q hq pre post h
      · by_cases hr : 0 < N * k + q ∧ (N * k + q) % N = 0
        · have hqN : q = N := by
            rcases hq with ⟨hq0, hk0⟩ | ⟨hq1, hq2⟩
            · subst hq0; subst hk0; simp at hr
            · have hmod : (N * k + q) % N = q % N := by
                simp [Nat.mul_add_mod]
              rw [hmod] at hr
              rcases Nat.lt_or_ge q N with hlt | hge
              · rw [Nat.mod_eq_of_lt hlt] at hr; omega
              · omega
          rw [show crawlLoop N visited (d :: rest) (N * k + q) =
              Event.restart :: Event.visit d ::
                crawlLoop N (d :: visited) rest (N * k + q + 1)
              by simp [crawlLoop, hv, hr]] at h
          cases pre with
          | nil =>
              simp only [List.nil_append, List.cons.injEq] at h
              refine ⟨by simp [countVisits_nil, countRestarts_nil, hqN], ?_⟩
              exact ⟨d, _, h.2.symm⟩
          | cons e pre1 =>
              simp only [List.cons_append, List.cons.injEq] at h
              obtain ⟨he, h2⟩ := h
              cases pre1 with
              | nil => simp at h2
              | cons e2 pre2 =>
                  simp only [List.cons_append, List.cons.injEq] at h2
                  obtain ⟨he2, h3⟩ := h2
                  have hrw : N * k + q + 1 = N * (k + 1) + 1 := by
                    rw [hqN]; ring
                  rw [hrw] at h3
                  obtain ⟨ihA, ihB⟩ := ih (d :: visited) (k + 1) 1
                    (Or.inr ⟨Nat.le_refl 1, hN⟩) pre2 post h3
                  subst he; subst he2
                  rw [countVisits_cons_restart, countVisits_cons_visit,
                    countRestarts_cons_restart, countRestarts_cons_visit]
                  refine ⟨?_, ihB⟩
                  have hexp : N * (countRestarts pre2 + 1 + 1) =
                      N * (countRestarts pre2 + 1) + N := by ring
                  rw [hexp, ← ihA, hqN]
        · have hunf : crawlLoop N visited (d :: rest) (N * k + q) =
              Event.visit d :: crawlLoop N (d :: visited) rest (N * k + q + 1) := by
            simp only [crawlLoop, if_neg hv, if_neg hr, List.nil_append]
          rw [hunf] at h
          cases pre with
          | nil => simp at h
          | cons e pre1 =>
              simp only [List.cons_append, List.cons.injEq] at h
              obtain ⟨he, h2⟩ := h
              have hqlt : q < N := by
                rcases hq with ⟨hq0, hk0⟩ | ⟨hq1, hq2⟩
                · omega
                · by_contra hge
                  have hqN : q = N := by omega
                  apply hr
                  refine ⟨Nat.lt_of_lt_of_le (by omega) (Nat.le_add_left q (N * k)), ?_⟩
                  rw [hqN, show N * k + N = N * (k + 1) by ring, Nat.mul_mod_right]
              have hnext : ((q + 1 = 0 ∧ k = 0) ∨ (1 ≤ q + 1 ∧ q + 1 ≤ N)) :=
                Or.inr ⟨by omega, by omega⟩
              have hrw : N * k + q + 1 = N * k + (q + 1) := by omega
              rw [hrw] at h2
              obtain ⟨ihA, ihB⟩ := ih (d :: visited) k (q + 1) hnext pre1 post h2
              subst he
              rw [countVisits_cons_visit, countRestarts_cons_visit]
              refine ⟨?_, ihB⟩
              generalize hX : N * (countRestarts pre1 + 1) = X at ihA ⊢
              omega

/-- A domain in the visited set is never visited by the loop, whatever the
    position counter: the set only grows while the loop runs. -/
theorem visit_notMem_crawlLoop (N : Nat) (dom : String) :
    ∀ (ds visited : List String) (p : Nat), dom ∈ visited →
      Event.visit dom ∉ crawlLoop N visited ds p := by
  intro ds
  induction ds with
  | nil => intro visited p _ hmem; simp [crawlLoop] at hmem
  | cons d rest ih =>
      intro visited p hdom hmem
      by_cases hv : d ∈ visited
      · rw [show crawlLoop N visited (d :: rest) p = crawlLoop N visited rest p
          by simp [crawlLoop, hv]] at hmem
        exact ih visited p hdom hmem
      · have hne : d ≠ dom := fun he => hv (he ▸ hdom)
        rw [show crawlLoop N visited (d :: rest) p =
            (if 0 < p ∧ p % N = 0 then [Event.restart] else []) ++
              Event.visit d :: crawlLoop N (d :: visited) rest (p + 1)
            by simp [crawlLoop, hv]] at hmem
        rw [List.mem_append] at hmem
        rcases hmem with hmem | hmem
        · by_cases hc : 0 < p ∧ p % N = 0
          · rw [if_pos hc] at hmem; simp at hmem
          · rw [if_neg hc] at hmem; simp at hmem
        · rw [List.mem_cons] at hmem
          rcases hmem with hmem | hmem
          · exact hne (by injection hmem with h2; exact h2.symm)
          · exact ih (d :: visited) (p + 1) (List.mem_cons_of_mem d hdom) hmem

/-! Lowercase lemmas for the loader. -/

theorem charToLower_idem (c : Char) : Char.toLower (Char.toLower c) = Char.toLower c := by
  unfold Char.toLower
  by_cases h : c.toNat ≥ 65 ∧ c.toNat ≤ 90
  · rw [if_pos h]
    have hv : (c.toNat + 32).isValidChar := Or.inl (by omega)
    have ht : (Char.ofNat (c.toNat + 32)).toNat = c.toNat + 32 := by
      unfold Char.ofNat
      rw [dif_pos hv]
      rfl
    rw [ht, if_neg (by omega)]
  · rw [if_neg h, if_neg h]

theorem pyLower_idem (s : String) : pyLower (pyLower s) = pyLower s := by
  refine congrArg String.mk ?_
  show List.map Char.toLower (List.map Char.toLower s.data) =
    List.map Char.toLower s.data
  rw [List.map_map]
  exact List.map_congr_left (fun c _ => charToLower_idem c)

theorem finishExtract_lower (s d : String) (h : finishExtract s = some d) :
    pyLower d = d := by
  unfold finishExtract at h
  dsimp only at h
  split at h
  · injection h with h2
    rw [← h2]
    exact pyLower_idem _
  · cases h

theorem extractTail_lower (s1 d : String)
    (h : extractTail s1 = Except.ok (some d)) : pyLower d = d := by
  unfold extractTail at h
  split at h
  · split at h
    · cases h
    · injection h with h2
      exact finishExtract_lower _ _ h2
  · injection h with h2
    exact finishExtract_lower _ _ h2

theorem extractAfterQuotes_lower (sq d : String)
    (h : extractAfterQuotes sq = Except.ok (some d)) : pyLower d = d := by
  unfold extractAfterQuotes at h
  split at h
  · cases h
  · split at h
    · split at h
      · injection h with h2
        injection h2 with h3
        rw [← h3]
        exact pyLower_idem _
      · cases h
    · exact extractTail_lower _ _ h

theorem extract_domain_lower (raw d : String)
    (h : _extract_domain raw = Except.ok (some d)) : pyLower d = d := by
  unfold _extract_domain at h
  split at h
  · cases h
  · exact extractAfterQuotes_lower _ _ h

theorem loadSitesLoop_lower :
    ∀ (lines acc : List String), (∀ d ∈ acc, pyLower d = d) →
      ∀ out, loadSitesLoop lines acc = Except.ok out → ∀ d ∈ out, pyLower d = d := by
  intro lines
  induction lines with
  | nil =>
      intro acc hacc out h d hd
      simp only [loadSitesLoop] at h
      injection h with h2
      rw [← h2, List.mem_reverse] at hd
      exact hacc d hd
  | cons line rest ih =>
      intro acc hacc out h d hd
      cases he : _extract_domain line with
      | error e =>
          rw [show loadSitesLoop (line :: rest) acc = Except.error e
            by simp [loadSitesLoop, he]] at h
          cases h
      | ok o =>
          cases o with
          | none =>
              rw [show loadSitesLoop (line :: rest) acc = loadSitesLoop rest acc
                by simp [loadSitesLoop, he]] at h
              exact ih acc hacc out h d hd
          | some d2 =>
              by_cases hm : d2 ∈ acc
              · rw [show loadSitesLoop (line :: rest) acc = loadSitesLoop rest acc
                  by simp [loadSitesLoop, he, hm]] at h
                exact ih acc hacc out h d hd
              · rw [show loadSitesLoop (line :: rest) acc =
                    loadSitesLoop rest (d2 :: acc)
                  by simp [loadSitesLoop, he, hm]] at h
                refine ih (d2 :: acc) ?_ out h d hd
                intro x hx
                rcases List.mem_cons.mp hx with hx2 | hx2
                · exact hx2 ▸ extract_domain_lower line d2 he
                · exact hacc x hx2

/-! ## Claim theorems -/

/-- Claim C1 (code bug): correlation is not idempotent.  On a directory
    holding one artifact the first pass renames it to its canonical name;
    a second pass over the unchanged directory performs one further rename
    (to the suffix-1 name) instead of zero, because the already-canonical
    check of the source compares against the already uniquified target,
    which for an existing file never equals the file itself.  The first
    conjunct also exhibits a file whose computed canonical path equals its
    current path and which is nevertheless renamed. -/
theorem claim_c1_eval :
    postprocess_rename loadsIdem 0 [FileEntry.mk ("raw77") artIdem 3] none =
      some ([FileEntry.mk idemCanonical artIdem 3], 1) ∧
    postprocess_rename loadsIdem 0 [FileEntry.mk idemCanonical artIdem 3] none =
      some ([FileEntry.mk ("css_dump_2023-11-14T22-13-19Z_idem_1.json") artIdem 3], 1) :=
  ⟨by decide, by decide⟩

/-- Claim C2, counterexample to the claim as stated: an artifact with page
    https://x.com/path and timestamp 1700000000000 is not renamed to the
    canonical name when another file already bears that name; it receives
    the suffix-1 name instead, so the rename does depend on the state of
    the directory (and, through the C1 bug, on the original name). -/
theorem claim_c2_counterexample :
    postprocess_rename loadsX 0
      [FileEntry.mk xCanonical ("occupant") 3, FileEntry.mk ("9f3c") artX 3] none =
      some ([FileEntry.mk xCanonical ("occupant") 3,
             FileEntry.mk ("css_dump_2023-11-14T22-13-20Z_x_1.json") artX 3], 1) ∧
    ("css_dump_2023-11-14T22-13-20Z_x_1.json" : String) ≠ xCanonical :=
  ⟨by decide, by decide⟩

/-- Claim C2 (amended): for every artifact file whose parsed JSON object
    has page field https://x.com/path and numeric timestamp field
    1700000000000, and whose directory does not already contain the name
    css_dump_2023-11-14T22-13-20Z_x.json, the correlator renames the file
    to exactly that name, regardless of the original file name, of the
    clock and of the file modification time. -/
theorem claim_c2 (loads : String → Option JValue) (now : ℚ)
    (dir : List FileEntry) (f : FileEntry) (fields : List (String × JValue))
    (hmem : f ∈ dir)
    (hstart : startsJsonLike f.content = true)
    (hparse : loads f.content = some (JValue.obj fields))
    (hpage : objGet fields ("page") = some (JValue.str ("https://x.com/path")))
    (hts : objGet fields ("timestamp") = some (JValue.num 1700000000000))
    (hfree : xCanonical ∉ dirNames dir) :
    processOne loads now dir f = some (renameEntry dir f.name xCanonical, 1) := by
  have hload : _try_load_json loads f.content = some (JValue.obj fields) := by
    unfold _try_load_json
    rw [hstart]
    simp [hparse]
  have e1 : pyOr (some (JValue.str ("https://x.com/path"))) (objGet fields ("url")) =
      some (JValue.str ("https://x.com/path")) := rfl
  have e2 : pyFalsy (some (JValue.str ("https://x.com/path"))) = false := rfl
  have e3 : pyLower (urlparse_hostname ("https://x.com/path")) = "x.com" := rfl
  have e4 : domainRe ("x.com") = true := rfl
  have e5 : sld_from_hostname ("x.com") = "x" := rfl
  have e6 : ∀ (fb : Option ℚ),
      iso_from_epoch_ms now (some (JValue.num 1700000000000)) fb =
        "2023-11-14T22-13-20Z" := fun fb => rfl
  have e7 : ("css_dump_" ++ "2023-11-14T22-13-20Z" ++ "_" ++ "x" ++ ".json" : String) =
      xCanonical := rfl
  have e8 : _uniquify (dirNames dir) xCanonical = xCanonical :=
    uniquify_id _ _ hfree
  have e9 : ¬ (xCanonical = f.name) :=
    fun he => hfree (he ▸ List.mem_map.mpr ⟨f, hmem, rfl⟩)
  unfold processOne
  rw [hload]
  dsimp only
  rw [hpage, e1]
  simp only [e2, Bool.false_eq_true, if_false]
  rw [e3, hts]
  rw [if_neg (by simp [e4])]
  rw [e6, e5, e7, e8, if_neg e9]

theorem claim_c2_witness :
    processOne loadsX 0 [FileEntry.mk ("blob7") artX 3]
      (FileEntry.mk ("blob7") artX 3) =
      some (renameEntry [FileEntry.mk ("blob7") artX 3] ("blob7") xCanonical, 1) :=
  claim_c2 loadsX 0 [FileEntry.mk ("blob7") artX 3] (FileEntry.mk ("blob7") artX 3)
    [("page", JValue.str ("https://x.com/path")),
     ("timestamp", JValue.num 1700000000000)]
    (by decide) rfl rfl rfl rfl (by decide)

/-- Claim C3, counterexample to the claim as stated: a file whose
    modification time 9 is strictly below the visit start time 10 is
    nevertheless included in the scoped pass, because the orchestrator
    passes start minus one second, not the start time, as the bound. -/
theorem claim_c3_counterexample :
    (9 : ℚ) < 10 ∧
    consideredFiles [FileEntry.mk ("g") ("x") 9] (some (incrementalRenameBound 10)) =
      [FileEntry.mk ("g") ("x") 9] ∧
    incrementalRenameBound 10 ≠ 10 := by
  refine ⟨by norm_num, ?_, ?_⟩
  · simp only [consideredFiles, incrementalRenameBound, List.filter]
    norm_num
  · simp only [incrementalRenameBound]
    norm_num

/-- Claim C3 (amended): the scoped pass considers a file exactly when its
    modification time is at least the sinceEpoch bound, and the
    orchestrator passes the visit start time minus one second as that
    bound. -/
theorem claim_c3 :
    (∀ (dir : List FileEntry) (bound : ℚ) (f : FileEntry),
        f ∈ consideredFiles dir (some bound) ↔ f ∈ dir ∧ bound ≤ f.mtime) ∧
    (∀ start_epoch : ℚ, incrementalRenameBound start_epoch = start_epoch - 1) := by
  refine ⟨?_, fun s => rfl⟩
  intro dir bound f
  simp [consideredFiles, List.mem_filter]

theorem claim_c3_witness : incrementalRenameBound 10 = 10 - 1 :=
  claim_c3.2 10

/-- Claim C4: collision uniquification.  The name chosen by _uniquify is
    never an existing name; an untaken target is kept; a taken target
    receives the smallest unused positive integer suffix; a successful
    whole-directory pass keeps all names pairwise distinct; and three
    same-canonical artifacts processed in order come out as the base name,
    the suffix-1 name and the suffix-2 name. -/
theorem claim_c4 :
    (∀ (names : List String) (target : String), _uniquify names target ∉ names) ∧
    (∀ (names : List String) (target : String), target ∉ names →
      _uniquify names target = target) ∧
    (∀ (names : List String) (target : String), target ∈ names →
      ∃ j, 1 ≤ j ∧
        _uniquify names target =
          candName (path_stem_suffix target).1 (path_stem_suffix target).2 j ∧
        candName (path_stem_suffix target).1 (path_stem_suffix target).2 j ∉ names ∧
        (∀ m, 1 ≤ m → m < j →
          candName (path_stem_suffix target).1 (path_stem_suffix target).2 m ∈ names)) ∧
    (∀ (loads : String → Option JValue) (now : ℚ) (dir : List FileEntry)
        (bound : Option ℚ) (res : List FileEntry × Nat),
      (dirNames dir).Nodup → postprocess_rename loads now dir bound = some res →
      (dirNames res.1).Nodup) ∧
    postprocess_rename loadsColl 0
      [FileEntry.mk ("u1") artColl 7, FileEntry.mk ("u2") artColl 7,
       FileEntry.mk ("u3") artColl 7] none =
      some ([FileEntry.mk collCanonical artColl 7,
             FileEntry.mk ("css_dump_2023-11-14T22-13-21Z_coll_1.json") artColl 7,
             FileEntry.mk ("css_dump_2023-11-14T22-13-21Z_coll_2.json") artColl 7], 3) :=
  ⟨uniquify_notMem, uniquify_id, uniquify_least, postprocess_rename_nodup, by decide⟩

theorem claim_c4_witness :
    _uniquify ["a.json"] ("a.json") ∉ (["a.json"] : List String) ∧
    _uniquify ["b.json"] ("a.json") = "a.json" ∧
    (dirNames [FileEntry.mk collCanonical artColl 7]).Nodup :=
  ⟨claim_c4.1 ["a.json"] ("a.json"),
   claim_c4.2.1 ["b.json"] ("a.json") (by decide),
   claim_c4.2.2.2.1 loadsColl 0 [FileEntry.mk ("u1") artColl 7] none
     ([FileEntry.mk collCanonical artColl 7], 1) (by decide) (by decide)⟩

/-- Claim C5, counterexample to the claim as stated: when both attempts
    fail and the http-attempt exception has an empty message, the appended
    line carries the placeholder not_loaded, not the http-attempt error. -/
theorem claim_c5_counterexample :
    attemptHttpEmptyMsg ("https://ex.com") = some ("ssl error") ∧
    attemptHttpEmptyMsg ("http://ex.com") = some ("") ∧
    failureLogAppend ("ex.com") (visitDomain attemptHttpEmptyMsg ("ex.com")) =
      ["ex.com\t\tnot_loaded"] ∧
    ("not_loaded" : String) ≠ "" :=
  ⟨rfl, rfl, rfl, by decide⟩

/-- Claim C5 (amended): if the https attempt fails and the http attempt
    succeeds, the outcome is loaded with finalUrl the http form and no
    failure-log line; if both fail, exactly one tab-separated line is
    appended whose reason is the http-attempt error message when that
    message is nonempty and the placeholder not_loaded otherwise; in both
    cases exactly the https and the http url are attempted, in that order,
    with no further retries. -/
theorem claim_c5 (attempt : String → Option String) (domain e1 : String)
    (h1 : attempt ("https://" ++ domain) = some e1) :
    (attempt ("http://" ++ domain) = none →
      visitDomain attempt domain =
        VisitResult.mk true (some ("http://" ++ domain)) none ∧
      failureLogAppend domain (visitDomain attempt domain) = []) ∧
    (∀ e2, attempt ("http://" ++ domain) = some e2 →
      visitDomain attempt domain = VisitResult.mk false none (some e2) ∧
      failureLogAppend domain (visitDomain attempt domain) =
        [domain ++ "\t" ++ "" ++ "\t" ++ (if e2 = "" then "not_loaded" else e2)]) ∧
    navAttempts attempt domain = ["https://" ++ domain, "http://" ++ domain] := by
  refine ⟨?_, ?_, ?_⟩
  · intro h2
    have hv : visitDomain attempt domain =
        VisitResult.mk true (some ("http://" ++ domain)) none := by
      unfold visitDomain
      dsimp only
      rw [h1, h2]
    refine ⟨hv, ?_⟩
    rw [hv]
    rfl
  · intro e2 h2
    have hv : visitDomain attempt domain = VisitResult.mk false none (some e2) := by
      unfold visitDomain
      dsimp only
      rw [h1, h2]
    refine ⟨hv, ?_⟩
    rw [hv]
    unfold failureLogAppend
    rw [if_pos (Or.inl (by simp))]
    by_cases he : e2 = ""
    · simp [he, Option.getD]
    · simp [he, Option.getD]
  · unfold navAttempts
    rw [h1]

theorem claim_c5_witness :
    (visitDomain attemptHttpsFails ("fb.org") =
        VisitResult.mk true (some ("http://fb.org")) none ∧
      failureLogAppend ("fb.org") (visitDomain attemptHttpsFails ("fb.org")) = []) ∧
    navAttempts attemptHttpsFails ("fb.org") = ["https://fb.org", "http://fb.org"] :=
  ⟨(claim_c5 attemptHttpsFails ("fb.org") ("timeout 30000ms exceeded") rfl).1 rfl,
   (claim_c5 attemptHttpsFails ("fb.org") ("timeout 30000ms exceeded") rfl).2.2⟩

/-- Claim C6: restart cadence.  Wherever the crawl loop emits a restart,
    the number of visits before it is exactly the threshold times one more
    than the number of earlier restarts (so the k-th restart happens after
    exactly k times N processed visits and the counter of visits since the
    last relaunch is zero there), at least N visits precede any restart,
    and every restart is immediately followed by a visit. -/
theorem claim_c6 (N : Nat) (hN : 0 < N) (visited domains : List String)
    (pre post : List Event)
    (h : crawlLoop N visited domains 0 = pre ++ Event.restart :: post) :
    countVisits pre = N * (countRestarts pre + 1) ∧
    N ≤ countVisits pre ∧
    ∃ d t, post = Event.visit d :: t := by
  have h0 : crawlLoop N visited domains (N * 0 + 0) = pre ++ Event.restart :: post := by
    simpa using h
  obtain ⟨hA, hB⟩ := crawlLoop_restart_split N hN domains visited 0 0
    (Or.inl ⟨rfl, rfl⟩) pre post h0
  have hA2 : countVisits pre = N * (countRestarts pre + 1) := by omega
  refine ⟨hA2, ?_, hB⟩
  have hexp : N * (countRestarts pre + 1) = N * countRestarts pre + N := by ring
  rw [hA2, hexp]
  omega

theorem claim_c6_witness :
    countVisits [Event.visit "a", Event.visit "b"] =
      2 * (countRestarts [Event.visit "a", Event.visit "b"] + 1) ∧
    2 ≤ countVisits [Event.visit "a", Event.visit "b"] ∧
    ∃ d t, [Event.visit "c"] = Event.visit d :: t :=
  claim_c6 2 (by decide) [] ["a", "b", "c"]
    [Event.visit "a", Event.visit "b"] [Event.visit "c"] (by decide)

/-- Claim C7 (code bug): on the documented example the loader returns
    exactly a.com, b.org, c.net in order, but a line consisting of a
    quoted space makes _extract_domain raise IndexError (s.split()[-1] on
    an empty token list), so the loader crashes instead of silently
    dropping the line. -/
theorem claim_c7_eval :
    load_sites ("https://a.com/x\n83,b.org\nnotadomain\n12 c.net") =
      Except.ok ["a.com", "b.org", "c.net"] ∧
    _extract_domain ("\" \"") = Except.error () ∧
    load_sites ("a.com\n\" \"\nb.org") = Except.error () :=
  ⟨rfl, rfl, rfl⟩

/-- Claim C8: resume idempotence.  A domain that appears as a line of the
    visited ledger is never emitted as a visit by the crawl loop, for any
    site list and any restart threshold. -/
theorem claim_c8 (N : Nat) (ledger domains : List String) (d : String)
    (hline : d ∈ ledger) (hstrip : pyStrip d = d) (hne : d ≠ "") :
    Event.visit d ∉ crawlLoop N (_read_set ledger) domains 0 := by
  apply visit_notMem_crawlLoop
  unfold _read_set
  rw [List.mem_filter]
  refine ⟨List.mem_map.mpr ⟨d, hline, hstrip⟩, by simp [hne]⟩

theorem claim_c8_witness :
    Event.visit ("a.com") ∉ crawlLoop 1 (_read_set ["a.com"]) ["a.com", "b.org"] 0 :=
  claim_c8 1 ["a.com"] ["a.com", "b.org"] ("a.com") (by simp) rfl (by decide)

/-- Claim C9 (code bug): content that is not JSON-like, a JSON object
    without a page identifier, and a page whose hostname fails the domain
    pattern are all skipped with no rename, no count and no error; but a
    JSON array, which the fast reject deliberately admits and which lacks
    a page field, makes the pass raise AttributeError (data.get on a
    list), aborting the whole pass. -/
theorem claim_c9_eval :
    postprocess_rename loadsMixed 0
      [FileEntry.mk ("a.bin") ("GIF89a") 5,
       FileEntry.mk ("b.json") contentNoPage 5,
       FileEntry.mk ("c.json") contentBadHost 5] none =
      some ([FileEntry.mk ("a.bin") ("GIF89a") 5,
             FileEntry.mk ("b.json") contentNoPage 5,
             FileEntry.mk ("c.json") contentBadHost 5], 0) ∧
    postprocess_rename loadsMixed 0 [FileEntry.mk ("d.json") contentArray 5] none =
      none :=
  ⟨by decide, by decide⟩

/-- Claim C10: every domain the loader returns is entirely lowercase:
    lowering it again changes nothing, for any input text. -/
theorem claim_c10 (text : String) (out : List String)
    (h : load_sites text = Except.ok out) :
    ∀ d ∈ out, pyLower d = d :=
  loadSitesLoop_lower (pySplitlines text) [] (by simp) out h

theorem claim_c10_witness : pyLower ("a.com") = "a.com" :=
  claim_c10 ("https://a.com/x\n83,b.org\nnotadomain\n12 c.net")
    ["a.com", "b.org", "c.net"] rfl ("a.com") (by simp)
